import Mathlib

/-!
# Verification of the invoice reconciliation pipeline (`src/app.py`)

A shallow embedding of the tabular pipeline in `src/app.py` (lines 108-241):
column resolution over header lists, date-based invoice partitioning,
client reconciliation, amount normalization, grouped aggregation and the
final email join.  Pandas cells are embedded as `Val` (a string cell, an
int64 cell, or a float64 cell); parsed monetary values are embedded as `ℚ`
(pandas uses float64, but every claim under study concerns which rows
contribute to a sum, not float rounding).  Dates are embedded as the result
of `pd.to_datetime(errors='coerce')`: an `Option Nat` day number, `none`
standing for `NaT`.  Fallible steps (the `KeyError`s pandas raises on a
missing column) are embedded with `Except`.
-/

namespace Seraphin

/-- A raw pandas cell: a string (object dtype), an int64, or a float64.
Floats are carried as `ℚ`; only integer-valued floats are exercised by the
development (they arise when `read_csv` coerces an integer id column that
contains missing values). -/
inductive Val
  | vstr (s : String)
  | vint (n : ℤ)
  | vfloat (q : ℚ)
deriving DecidableEq

/-- The elementwise comparison `series != 0` of `src/app.py` line 201:
on an object (string) cell Python's `!= 0` is always `True`; on a numeric
cell it is a numeric comparison. -/
def Val.neZero : Val → Bool
  | .vstr _ => true
  | .vint n => decide (n ≠ 0)
  | .vfloat q => decide (q ≠ 0)

/-- Canonical key for pandas equality (`isin`, line 186/189): strings
compare by content, numerics by numeric value, and a string never equals a
number (Python `"1023" == 1023` is `False`, `1023 == 1023.0` is `True`). -/
def Val.key : Val → String ⊕ ℚ
  | .vstr s => Sum.inl s
  | .vint n => Sum.inr (n : ℚ)
  | .vfloat q => Sum.inr q

/-- Pandas cell equality as used by `isin` on raw (pre-`astype(str)`)
columns. -/
def Val.peq (a b : Val) : Bool := decide (a.key = b.key)

/-- Rendering of a float64 cell by `astype(str)`: an integer-valued float
prints with a trailing `.0` (Python `str(1023.0) = "1023.0"`).  Ids in
scope are integer-valued; the non-integral branch is a deterministic
placeholder for Python's shortest-roundtrip float repr. -/
def floatRepr (q : ℚ) : String :=
  if q.den = 1 then toString q.num ++ ".0"
  else toString q.num ++ "/" ++ toString q.den

/-- `astype(str)` on a cell (`src/app.py` lines 205-206): no trimming, no
numeric canonicalization beyond Python's `str`. -/
def Val.astypeStr : Val → String
  | .vstr s => s
  | .vint n => toString n
  | .vfloat q => floatRepr q

/-! ## String utilities (structural, so that concrete runs evaluate) -/

/-- Substring test on character lists (structural recursion). -/
def listContainsSub (needle : List Char) : List Char → Bool
  | [] => decide (needle = [])
  | c :: rest => needle.isPrefixOf (c :: rest) || listContainsSub needle rest

/-- Python's `needle in hay` substring test. -/
def strContains (hay needle : String) : Bool :=
  listContainsSub needle.toList hay.toList

/-- Python's `.lower()` (ASCII case folding, which is all the header
keywords need). -/
def lowerString (s : String) : String :=
  String.mk (s.toList.map Char.toLower)

/-- Python string `<=` on code points (structural, mirrors the order pandas
uses to sort object-dtype group keys). -/
def charListLe : List Char → List Char → Bool
  | [], _ => true
  | _ :: _, [] => false
  | a :: as, b :: bs =>
    if a.toNat < b.toNat then true
    else if b.toNat < a.toNat then false
    else charListLe as bs

/-- `s <= t` on strings, by code points. -/
def strLeB (s t : String) : Bool := charListLe s.toList t.toList

/-- Insert into a `strLeB`-sorted list. -/
def insertSortedStr (s : String) : List String → List String
  | [] => [s]
  | t :: ts => if strLeB s t then s :: t :: ts else t :: insertSortedStr s ts

/-- Insertion sort of group keys, mirroring `groupby(sort=True)`. -/
def sortStrings : List String → List String
  | [] => []
  | s :: ss => insertSortedStr s (sortStrings ss)

/-- First-seen-order deduplication, accumulator-passing so it evaluates
structurally.  Mirrors pandas `Series.unique()`. -/
def dedupFirstAux {α : Type} [DecidableEq α] (seen : List α) : List α → List α
  | [] => []
  | a :: as =>
    if a ∈ seen then dedupFirstAux seen as
    else a :: dedupFirstAux (a :: seen) as

/-- Distinct values of a list in first-seen order (pandas `unique()`). -/
def dedupFirst {α : Type} [DecidableEq α] (l : List α) : List α :=
  dedupFirstAux [] l

/-! ## Amount normalization (`src/app.py` lines 214-216) -/

/-- `Series.replace({',': '.'}, regex=True)` on one cell: every comma in a
string cell becomes a dot; numeric cells are untouched.  The pattern is a
single character, so a per-character map is exactly Python's behaviour. -/
def replaceCommaDot : Val → Val
  | .vstr s => .vstr (String.mk (s.toList.map fun c => if c = ',' then '.' else c))
  | v => v

/-- Numeric value of a digit character. -/
def digitVal (c : Char) : Nat := c.toNat - 48

/-- Value of a digit string (most significant first). -/
def natOfDigits (cs : List Char) : Nat :=
  cs.foldl (fun n c => 10 * n + digitVal c) 0

/-- The plain-decimal fragment of `pd.to_numeric`'s string parser: optional
leading minus, digits, optional dot, digits (at least one digit overall).
Scientific notation and surrounding whitespace, which no claim exercises,
are out of the modelled fragment and rejected. -/
def parseDecimal? (s : String) : Option ℚ :=
  let go : List Char → Option ℚ := fun cs =>
    let ip := cs.takeWhile Char.isDigit
    let rest := cs.dropWhile Char.isDigit
    match rest with
    | [] => if ip.isEmpty then none else some (natOfDigits ip : ℚ)
    | '.' :: fp =>
      if fp.all Char.isDigit && !(ip.isEmpty && fp.isEmpty) then
        some ((natOfDigits ip : ℚ) + (natOfDigits fp : ℚ) / ((10 : ℚ) ^ fp.length))
      else none
    | _ => none
  match s.toList with
  | '-' :: cs => (go cs).map (fun q => -q)
  | cs => go cs

/-- `pd.to_numeric(errors='coerce')` on one cell: numbers pass through,
strings are parsed, failures become the missing marker (`NaN`), embedded
as `none`. -/
def toNumeric? : Val → Option ℚ
  | .vstr s => parseDecimal? s
  | .vint n => some (n : ℚ)
  | .vfloat q => some q

/-! ## Column resolution (`src/app.py` lines 112-117, 194-199, 219-224) -/

/-- Header test of line 112: `'date' in col.lower()`. -/
def isDateCol (c : String) : Bool := strContains (lowerString c) "date"

/-- `date_columns[0]` of lines 112-116: the first date-like header, if
any. -/
def resolveDateCol (headers : List String) : Option String :=
  (headers.filter isDateCol).head?

/-- The canonical amount header of line 194. -/
def amountCanon : String := "Montant TTC de la ligne facture ou avoir"

/-- Fuzzy amount-header test of line 196. -/
def isAmountCol (c : String) : Bool :=
  strContains (lowerString c) "montant" || strContains (lowerString c) "amount"

/-- Amount-column resolution of lines 194-198: the exact canonical name if
present, else the first fuzzy match, else the canonical name is kept
unresolved (and line 201 then raises `KeyError`). -/
def resolveAmountCol (headers : List String) : String :=
  if headers.contains amountCanon then amountCanon
  else
    match (headers.filter isAmountCol).head? with
    | some c => c
    | none => amountCanon

/-- The canonical product header of line 219. -/
def productCanon : String := "Nom du Produit"

/-- Fuzzy product-header test of line 221. -/
def isProductCol (c : String) : Bool :=
  strContains (lowerString c) "produit" || strContains (lowerString c) "product"

/-- Product-column resolution of lines 219-224, analogous to the amount
column. -/
def resolveProductCol (headers : List String) : String :=
  if headers.contains productCanon then productCanon
  else
    match (headers.filter isProductCol).head? with
    | some c => c
    | none => productCanon

/-- The invoice client-id header, hard-coded at lines 186, 205, 209, 228. -/
def clientCanon : String := "Numéro du client"

/-! ## Tables -/

/-- One invoice row, carrying the cells of the resolved logical columns:
the date cell already as its `to_datetime(errors='coerce')` result
(`none` = `NaT`), the raw client-id cell, the raw amount cell, and the
product name. -/
structure InvRow where
  rdate : Option Nat
  client : Val
  amount : Val
  product : String
deriving DecidableEq

/-- One row of the client roster after its email/id columns resolved
(lines 168-182). -/
structure ClientRow where
  email : String
  cid : Val
deriving DecidableEq

/-- One row of the grouped table `total_amounts` (lines 228-233). -/
structure ResultRow where
  rkey : String
  total : ℚ
  products : String
deriving DecidableEq

/-- One row of the final table after the email merge (lines 236-241);
`none` email = no matching client row (left join miss). -/
structure FinalRow where
  rkey : String
  total : ℚ
  products : String
  email : Option String
deriving DecidableEq

/-- The caller-supplied run data: the invoice table (headers plus rows),
the contact export's email column (line 174 uses its first column), the
filtered client roster rows, and the cutoff date. -/
structure PipelineInput where
  invHeaders : List String
  invoiceRows : List InvRow
  boostEmails : List String
  clientRows : List ClientRow
  cutoff : Nat
deriving DecidableEq

/-! ## Partitioner (`src/app.py` lines 120-139) -/

/-- The row test of line 123, `parsed_date < cutoff`: `NaT` compares
`False`. -/
def isBefore (cutoff : Nat) (r : InvRow) : Bool :=
  match r.rdate with
  | some d => decide (d < cutoff)
  | none => false

/-- The row test of line 124, `parsed_date >= cutoff`: `NaT` compares
`False`. -/
def isAfter (cutoff : Nat) (r : InvRow) : Bool :=
  match r.rdate with
  | some d => decide (cutoff ≤ d)
  | none => false

/-- Line 123: rows whose parsed date is strictly before the cutoff
(undated rows are dropped). -/
def beforeRows (cutoff : Nat) (rows : List InvRow) : List InvRow :=
  rows.filter (isBefore cutoff)

/-- Line 124: rows whose parsed date is at or after the cutoff (undated
rows are dropped). -/
def afterRows (cutoff : Nat) (rows : List InvRow) : List InvRow :=
  rows.filter (isAfter cutoff)

/-- Lines 112-139: if some header is date-like the table is split on the
parsed dates; otherwise the fallback of lines 135-139 splits at the
row-index midpoint. -/
def splitInvoices (inp : PipelineInput) : List InvRow × List InvRow :=
  match resolveDateCol inp.invHeaders with
  | some _ => (beforeRows inp.cutoff inp.invoiceRows, afterRows inp.cutoff inp.invoiceRows)
  | none =>
    (inp.invoiceRows.take (inp.invoiceRows.length / 2),
     inp.invoiceRows.drop (inp.invoiceRows.length / 2))

/-- The `resa` (before-cutoff) side of the split. -/
def resaOf (inp : PipelineInput) : List InvRow := (splitInvoices inp).1

/-- The `invoices` (after-cutoff) side of the split. -/
def afterOf (inp : PipelineInput) : List InvRow := (splitInvoices inp).2

/-! ## Reconciler (`src/app.py` lines 174-190) -/

/-- Line 174: keep client rows whose email appears in the contact
export. -/
def clientsByEmail (boostEmails : List String) (clients : List ClientRow) : List ClientRow :=
  clients.filter fun c => boostEmails.contains c.email

/-- Line 186 membership test: does this client's raw id appear in the
`resa` slice's raw client column? -/
def inResa (resa : List InvRow) (c : ClientRow) : Bool :=
  resa.any fun r => Val.peq c.cid r.client

/-- Lines 174-189: the retained clients — known to the contact export
(line 174) and, via `clients_in_resa` (line 186) and the `~isin` of line
189, with no raw-id match in the before-cutoff slice. -/
def retainedClients (boostEmails : List String) (clients : List ClientRow)
    (resa : List InvRow) : List ClientRow :=
  (clientsByEmail boostEmails clients).filter fun c =>
    !(((clientsByEmail boostEmails clients).filter (inResa resa)).any fun d =>
      Val.peq c.cid d.cid)

/-- The retained clients of a run. -/
def retainedOf (inp : PipelineInput) : List ClientRow :=
  retainedClients inp.boostEmails inp.clientRows (resaOf inp)

/-- Line 206: the retained clients' ids after `astype(str)`. -/
def retainedStrKeys (retained : List ClientRow) : List String :=
  retained.map fun c => c.cid.astypeStr

/-! ## Normalizer and aggregation (`src/app.py` lines 201-233) -/

/-- Line 201: `invoices[invoices[amount_col] != 0]` — the raw cell is
compared against `0` before any comma normalization or parsing. -/
def nonZeroRows (rows : List InvRow) : List InvRow :=
  rows.filter fun r => r.amount.neZero

/-- Line 209: keep invoice rows whose stringified client id is among the
retained clients' stringified ids. -/
def restrictToRetained (retained : List ClientRow) (rows : List InvRow) : List InvRow :=
  rows.filter fun r => (retainedStrKeys retained).contains r.client.astypeStr

/-- The after-cutoff invoices that survive lines 201 and 209. -/
def survivingOf (inp : PipelineInput) : List InvRow :=
  restrictToRetained (retainedOf inp) (nonZeroRows (afterOf inp))

/-- Lines 214-216 on one cell: comma to dot, then `to_numeric` with
coercion; `none` is the `NaN` marker. -/
def parsedAmount (r : InvRow) : Option ℚ :=
  toNumeric? (replaceCommaDot r.amount)

/-- A row's contribution to its group sum: pandas `sum` skips `NaN`, so a
missing amount contributes `0`. -/
def parsedOrZero (r : InvRow) : ℚ := (parsedAmount r).getD 0

/-- The stringified group key of a row (line 205 then line 228). -/
def keyOf (r : InvRow) : String := r.client.astypeStr

/-- The rows of one group: the surviving rows with the given key. -/
def groupOf (inp : PipelineInput) (k : String) : List InvRow :=
  (survivingOf inp).filter fun r => keyOf r == k

/-- One output row of `groupby(...).agg(...)` (lines 228-231) for group
key `k`: the `NaN`-skipping sum of the group's normalized amounts, and the
comma-join of the group's first-seen-order distinct products
(`', '.join(x.unique())`). -/
def aggRow (rows : List InvRow) (k : String) : ResultRow :=
  { rkey := k
    total := ((rows.filter fun r => keyOf r == k).map parsedOrZero).sum
    products :=
      String.intercalate ", " (dedupFirst ((rows.filter fun r => keyOf r == k).map InvRow.product)) }

/-- Lines 228-233: group by the stringified client id, one row per
distinct key, keys sorted as `groupby(sort=True)` does. -/
def aggregate (rows : List InvRow) : List ResultRow :=
  (sortStrings (dedupFirst (rows.map keyOf))).map (aggRow rows)

/-- Lines 236-241: left-join the retained clients' emails onto the grouped
table on the stringified id.  A key with no client match keeps the row
with an absent email; a key matching several client rows is duplicated,
one output row per match — exactly pandas `merge(how='left')`. -/
def mergeEmail (retained : List ClientRow) : List ResultRow → List FinalRow
  | [] => []
  | r :: rs =>
    (match retained.filter (fun c => c.cid.astypeStr == r.rkey) with
     | [] => [{ rkey := r.rkey, total := r.total, products := r.products, email := none }]
     | ms => ms.map fun c =>
        { rkey := r.rkey, total := r.total, products := r.products, email := some c.email })
    ++ mergeEmail retained rs

/-- The whole pipeline of lines 108-241 on already-read tables.  The three
`KeyError` sites are modelled in source order: line 186 (`resa['Numéro du
client']` with no such invoice column), line 201 (unresolvable amount
column), line 228 (`agg` dict keyed by an unresolvable product column —
pandas raises before the `'N/A'` lambda branch can ever run). -/
def runPipeline (inp : PipelineInput) : Except String (List FinalRow) :=
  if inp.invHeaders.contains clientCanon = false then
    .error ("KeyError: " ++ clientCanon)
  else if inp.invHeaders.contains (resolveAmountCol inp.invHeaders) = false then
    .error ("KeyError: " ++ resolveAmountCol inp.invHeaders)
  else if inp.invHeaders.contains (resolveProductCol inp.invHeaders) = false then
    .error ("KeyError: " ++ resolveProductCol inp.invHeaders)
  else
    .ok (mergeEmail (retainedOf inp) (aggregate (survivingOf inp)))

/-- From the claim's words (C4): a row's contribution to "the sum of the
normalized, non-zero, non-missing amounts" — its parsed amount when that
parse succeeds and is non-zero, nothing otherwise. -/
def specContrib (r : InvRow) : Option ℚ :=
  match parsedAmount r with
  | some q => if q = 0 then none else some q
  | none => none

/-- From the claim's words (C4): "the sum of the normalized, non-zero,
non-missing amounts over exactly those after-partition rows whose clientId
is in the retained-client set". -/
def specAfterSum (inp : PipelineInput) : ℚ :=
  (((afterOf inp).filter fun r =>
      (retainedStrKeys (retainedOf inp)).contains r.client.astypeStr).filterMap specContrib).sum

/-! ## Concrete scenario tables -/

/-- The canonical invoice header list used by the concrete scenarios. -/
def canonHeaders : List String :=
  ["Date de la facture", clientCanon, amountCanon, productCanon]

/-- The spec's two-row scenario: a `"0,00"` line and a `"15,00"` line for
client 2, no before-cutoff rows, client 2 known to the contact export. -/
def zeroScenario : PipelineInput :=
  { invHeaders := canonHeaders
    invoiceRows :=
      [ { rdate := some 10, client := .vint 2, amount := .vstr "0,00", product := "Z" }
      , { rdate := some 11, client := .vint 2, amount := .vstr "15,00", product := "P" } ]
    boostEmails := ["e"]
    clientRows := [{ email := "e", cid := .vint 2 }]
    cutoff := 5 }

/-- A run whose invoice and client tables carry the id 1023 in float64
cells, as `read_csv` produces when an integer id column also holds missing
values. -/
def floatIdScenario : PipelineInput :=
  { invHeaders := canonHeaders
    invoiceRows :=
      [ { rdate := some 10, client := .vfloat 1023, amount := .vstr "15,00", product := "P" } ]
    boostEmails := ["e"]
    clientRows := [{ email := "e", cid := .vfloat 1023 }]
    cutoff := 5 }

/-- A run whose client roster lists client 2 twice under two contact-known
emails. -/
def dupClientScenario : PipelineInput :=
  { invHeaders := canonHeaders
    invoiceRows :=
      [ { rdate := some 10, client := .vint 2, amount := .vstr "15,00", product := "P" } ]
    boostEmails := ["e1", "e2"]
    clientRows := [{ email := "e1", cid := .vint 2 }, { email := "e2", cid := .vint 2 }]
    cutoff := 5 }

/-- An invoice table with a date, client and amount column but no
product-like column at all. -/
def noProductScenario : PipelineInput :=
  { invHeaders := ["Date de la facture", clientCanon, amountCanon]
    invoiceRows :=
      [ { rdate := some 10, client := .vint 2, amount := .vstr "15,00", product := "P" } ]
    boostEmails := ["e"]
    clientRows := [{ email := "e", cid := .vint 2 }]
    cutoff := 5 }

/-- A small run with one unparsable amount cell (`"abc"`) next to a valid
one, both after the cutoff, used by several witnesses. -/
def wRun : PipelineInput :=
  { invHeaders := canonHeaders
    invoiceRows :=
      [ { rdate := some 10, client := .vint 2, amount := .vstr "abc", product := "A" }
      , { rdate := some 11, client := .vint 2, amount := .vstr "15,00", product := "B" } ]
    boostEmails := ["e"]
    clientRows := [{ email := "e", cid := .vint 2 }]
    cutoff := 5 }

/-- The unparsable-amount row of `wRun`. -/
def wAbcRow : InvRow :=
  { rdate := some 10, client := .vint 2, amount := .vstr "abc", product := "A" }

/-- A run whose invoice id column carries strings (`"7"`, as `read_csv`
produces when one stray non-numeric id makes the column object dtype)
while the roster id is numeric `7`: the representation mismatch that
defeats the raw `isin` of line 186. -/
def mixedIdScenario : PipelineInput :=
  { invHeaders := canonHeaders
    invoiceRows :=
      [ { rdate := some 1, client := .vstr "7", amount := .vstr "5,00", product := "x" }
      , { rdate := some 10, client := .vstr "7", amount := .vstr "15,00", product := "P" } ]
    boostEmails := ["e"]
    clientRows := [{ email := "e", cid := .vint 7 }]
    cutoff := 5 }

/-- A one-row before-cutoff slice used by the reconciliation witness. -/
def wResa : List InvRow :=
  [{ rdate := some 1, client := .vint 9, amount := .vstr "5,00", product := "x" }]

/-- A client row used by the reconciliation witness. -/
def wClient : ClientRow := { email := "e", cid := .vint 7 }

/-! ## Helper lemmas -/

theorem peq_refl (a : Val) : Val.peq a a = true := by
  simp [Val.peq]

theorem dedupFirstAux_cons_mem {α : Type} [DecidableEq α] {b : α} {seen : List α}
    (bs : List α) (hb : b ∈ seen) : dedupFirstAux seen (b :: bs) = dedupFirstAux seen bs := by
  simp [dedupFirstAux, hb]

theorem dedupFirstAux_cons_not_mem {α : Type} [DecidableEq α] {b : α} {seen : List α}
    (bs : List α) (hb : b ∉ seen) :
    dedupFirstAux seen (b :: bs) = b :: dedupFirstAux (b :: seen) bs := by
  simp [dedupFirstAux, hb]

theorem mem_dedupFirstAux {α : Type} [DecidableEq α] (a : α) :
    ∀ (l seen : List α), a ∈ dedupFirstAux seen l ↔ a ∈ l ∧ a ∉ seen := by
  intro l
  induction l with
  | nil => intro seen; simp [dedupFirstAux]
  | cons b bs ih =>
    intro seen
    by_cases hb : b ∈ seen
    · rw [dedupFirstAux_cons_mem bs hb, ih seen]
      constructor
      · rintro ⟨h1, h2⟩; exact ⟨List.mem_cons_of_mem _ h1, h2⟩
      · rintro ⟨h1, h2⟩
        rcases List.mem_cons.mp h1 with rfl | h
        · exact absurd hb h2
        · exact ⟨h, h2⟩
    · rw [dedupFirstAux_cons_not_mem bs hb]
      constructor
      · intro h
        rcases List.mem_cons.mp h with rfl | h
        · exact ⟨List.mem_cons_self _ _, hb⟩
        · obtain ⟨h1, h2⟩ := (ih (b :: seen)).mp h
          exact ⟨List.mem_cons_of_mem _ h1, fun hs => h2 (List.mem_cons_of_mem _ hs)⟩
      · rintro ⟨h1, h2⟩
        rcases List.mem_cons.mp h1 with rfl | h
        · exact List.mem_cons_self _ _
        · by_cases hab : a = b
          · exact hab ▸ List.mem_cons_self _ _
          · refine List.mem_cons_of_mem _ ((ih (b :: seen)).mpr ⟨h, ?_⟩)
            intro hs
            rcases List.mem_cons.mp hs with h' | h'
            · exact hab h'
            · exact h2 h'

theorem mem_dedupFirst {α : Type} [DecidableEq α] (a : α) (l : List α) :
    a ∈ dedupFirst l ↔ a ∈ l := by
  simp [dedupFirst, mem_dedupFirstAux]

theorem nodup_dedupFirstAux {α : Type} [DecidableEq α] :
    ∀ (l seen : List α), (dedupFirstAux seen l).Nodup := by
  intro l
  induction l with
  | nil => intro seen; simp [dedupFirstAux]
  | cons b bs ih =>
    intro seen
    by_cases hb : b ∈ seen
    · rw [dedupFirstAux_cons_mem bs hb]; exact ih seen
    · rw [dedupFirstAux_cons_not_mem bs hb]
      refine List.nodup_cons.mpr ⟨?_, ih (b :: seen)⟩
      intro hmem
      exact ((mem_dedupFirstAux b bs (b :: seen)).mp hmem).2 (List.mem_cons_self b seen)

theorem nodup_dedupFirst {α : Type} [DecidableEq α] (l : List α) :
    (dedupFirst l).Nodup :=
  nodup_dedupFirstAux l []

theorem insertSortedStr_perm (s : String) (l : List String) :
    (insertSortedStr s l).Perm (s :: l) := by
  induction l with
  | nil => simp [insertSortedStr]
  | cons t ts ih =>
    by_cases h : strLeB s t
    · simp [insertSortedStr, h]
    · rw [insertSortedStr, if_neg h]
      exact (ih.cons t).trans (List.Perm.swap s t ts)

theorem sortStrings_perm (l : List String) : (sortStrings l).Perm l := by
  induction l with
  | nil => simp [sortStrings]
  | cons s ss ih =>
    exact ((insertSortedStr_perm s (sortStrings ss)).trans (ih.cons s))

theorem mem_sortStrings (a : String) (l : List String) :
    a ∈ sortStrings l ↔ a ∈ l :=
  (sortStrings_perm l).mem_iff

theorem nodup_sortStrings (l : List String) (h : l.Nodup) :
    (sortStrings l).Nodup :=
  (sortStrings_perm l).nodup_iff.mpr h

theorem sum_split {α : Type} (p : α → Bool) (f : α → ℚ) (l : List α) :
    ((l.filter p).map f).sum + ((l.filter fun a => !(p a)).map f).sum = (l.map f).sum := by
  induction l with
  | nil => simp
  | cons a as ih =>
    by_cases h : p a
    · simp [List.filter_cons, h]
      rw [← ih]; ring
    · simp [List.filter_cons, h]
      rw [← ih]; ring

theorem contains_iff_mem {l : List String} {a : String} :
    l.contains a = true ↔ a ∈ l := by
  simp

theorem sum_groups {α : Type} (kf : α → String) (f : α → ℚ) :
    ∀ (keys : List String), keys.Nodup → ∀ (rows : List α), (∀ r ∈ rows, kf r ∈ keys) →
      (keys.map fun k => ((rows.filter fun r => kf r == k).map f).sum).sum
        = (rows.map f).sum := by
  intro keys
  induction keys with
  | nil =>
    intro _ rows hcov
    have hrows : rows = [] := by
      cases rows with
      | nil => rfl
      | cons r rs => exact absurd (hcov r (List.mem_cons_self r rs)) (List.not_mem_nil _)
    subst hrows; simp
  | cons k ks ih =>
    intro hnd rows hcov
    obtain ⟨hk, hks⟩ := List.nodup_cons.mp hnd
    have hcov' : ∀ r ∈ rows.filter (fun r => !(kf r == k)), kf r ∈ ks := by
      intro r hr
      obtain ⟨hr1, hr2⟩ := List.mem_filter.mp hr
      rcases List.mem_cons.mp (hcov r hr1) with h | h
      · rw [h] at hr2; simp at hr2
      · exact h
    have htail : ∀ k' ∈ ks,
        (rows.filter fun r => kf r == k')
          = (rows.filter (fun r => !(kf r == k))).filter (fun r => kf r == k') := by
      intro k' hk'
      rw [List.filter_filter]
      apply List.filter_congr
      intro r _
      by_cases h : kf r = k'
      · have hkk' : ¬(k' = k) := fun he => hk (he ▸ hk')
        simp [h, hkk']
      · simp [h]
    have hmapeq : (ks.map fun k' => ((rows.filter fun r => kf r == k').map f).sum)
        = ks.map fun k' =>
            (((rows.filter (fun r => !(kf r == k))).filter fun r => kf r == k').map f).sum :=
      List.map_congr_left (fun k' hk' => by rw [htail k' hk'])
    simp only [List.map_cons, List.sum_cons]
    rw [hmapeq, ih hks _ hcov', ← sum_split (fun r => kf r == k) f rows]

theorem sum_parsedOrZero_eq_filterMap (g : List InvRow) :
    (g.map parsedOrZero).sum = (g.filterMap parsedAmount).sum := by
  induction g with
  | nil => simp
  | cons r rs ih =>
    cases h : parsedAmount r with
    | none => simp [parsedOrZero, h, List.filterMap_cons, ih]
    | some q => simp [parsedOrZero, h, List.filterMap_cons, ih]

theorem sum_nonZero_eq_spec (l : List InvRow) :
    ((l.filter fun r => r.amount.neZero).map parsedOrZero).sum
      = (l.filterMap specContrib).sum := by
  induction l with
  | nil => simp
  | cons r rs ih =>
    cases hv : r.amount with
    | vstr s =>
      have hnz : r.amount.neZero = true := by rw [hv]; rfl
      cases hp : parsedAmount r with
      | none =>
        simp [List.filter_cons, hnz, specContrib, hp, parsedOrZero, List.filterMap_cons, ih]
      | some q =>
        by_cases hq : q = 0
        · simp [List.filter_cons, hnz, specContrib, hp, hq, parsedOrZero,
            List.filterMap_cons, ih]
        · simp [List.filter_cons, hnz, specContrib, hp, hq, parsedOrZero,
            List.filterMap_cons, ih]
    | vint n =>
      have hp : parsedAmount r = some (n : ℚ) := by
        simp [parsedAmount, hv, replaceCommaDot, toNumeric?]
      by_cases hn : n = 0
      · have hnz : r.amount.neZero = false := by rw [hv]; simp [Val.neZero, hn]
        simp [List.filter_cons, hnz, specContrib, hp, hn, List.filterMap_cons, ih]
      · have hnz : r.amount.neZero = true := by rw [hv]; simp [Val.neZero, hn]
        have hq : ((n : ℚ)) ≠ 0 := Int.cast_ne_zero.mpr hn
        simp [List.filter_cons, hnz, specContrib, hp, hq, parsedOrZero,
          List.filterMap_cons, ih]
    | vfloat q =>
      have hp : parsedAmount r = some q := by
        simp [parsedAmount, hv, replaceCommaDot, toNumeric?]
      by_cases hq : q = 0
      · have hnz : r.amount.neZero = false := by rw [hv]; simp [Val.neZero, hq]
        simp [List.filter_cons, hnz, specContrib, hp, hq, List.filterMap_cons, ih]
      · have hnz : r.amount.neZero = true := by rw [hv]; simp [Val.neZero, hq]
        simp [List.filter_cons, hnz, specContrib, hp, hq, parsedOrZero,
          List.filterMap_cons, ih]

theorem surviving_eq_swap (inp : PipelineInput) :
    survivingOf inp
      = ((afterOf inp).filter fun r =>
          (retainedStrKeys (retainedOf inp)).contains r.client.astypeStr).filter
          (fun r => r.amount.neZero) := by
  unfold survivingOf restrictToRetained nonZeroRows
  rw [List.filter_filter, List.filter_filter]
  apply List.filter_congr
  intro r _
  exact Bool.and_comm _ _

theorem mem_survivingOf {inp : PipelineInput} {r : InvRow} :
    r ∈ survivingOf inp ↔
      r ∈ afterOf inp ∧ r.amount.neZero = true ∧
        (retainedStrKeys (retainedOf inp)).contains r.client.astypeStr = true := by
  unfold survivingOf restrictToRetained nonZeroRows
  simp only [List.mem_filter]
  tauto

theorem retainedStrKeys_cons (c : ClientRow) (cs : List ClientRow) :
    retainedStrKeys (c :: cs) = c.cid.astypeStr :: retainedStrKeys cs := rfl

theorem filter_key_len_one {retained : List ClientRow} {k : String}
    (hnd : (retainedStrKeys retained).Nodup) (hk : k ∈ retainedStrKeys retained) :
    (retained.filter fun c => c.cid.astypeStr == k).length = 1 := by
  induction retained with
  | nil => simp [retainedStrKeys] at hk
  | cons c cs ih =>
    rw [retainedStrKeys_cons] at hnd hk
    obtain ⟨h1, h2⟩ := List.nodup_cons.mp hnd
    rcases List.mem_cons.mp hk with h | h
    · subst h
      have htail : (cs.filter fun d => d.cid.astypeStr == c.cid.astypeStr) = [] := by
        apply List.filter_eq_nil_iff.mpr
        intro d hd
        simp only [beq_iff_eq]
        intro he
        exact h1 (he ▸ List.mem_map_of_mem (fun x => x.cid.astypeStr) hd)
      simp [List.filter_cons, htail]
    · have hck : (c.cid.astypeStr == k) = false := by
        simp only [beq_eq_false_iff_ne, ne_eq]
        intro he; exact h1 (he ▸ h)
      simp only [List.filter_cons, hck]
      simpa using ih h2 h

theorem mergeEmail_total_sum (retained : List ClientRow) :
    ∀ (rs : List ResultRow), (retainedStrKeys retained).Nodup →
      (∀ rr ∈ rs, rr.rkey ∈ retainedStrKeys retained) →
      ((mergeEmail retained rs).map FinalRow.total).sum = (rs.map ResultRow.total).sum := by
  intro rs
  induction rs with
  | nil => intro _ _; simp [mergeEmail]
  | cons r rs ih =>
    intro hnd hcov
    have hk : r.rkey ∈ retainedStrKeys retained := hcov r (List.mem_cons_self r rs)
    obtain ⟨c, hc⟩ := List.length_eq_one.mp (filter_key_len_one hnd hk)
    have hrest := ih hnd (fun rr h => hcov rr (List.mem_cons_of_mem _ h))
    simp [mergeEmail, hc, hrest]

theorem mergeEmail_mem_of_mem (retained : List ClientRow) :
    ∀ (rs : List ResultRow) (rr : ResultRow), rr ∈ rs →
      ∃ fr ∈ mergeEmail retained rs,
        fr.rkey = rr.rkey ∧ fr.total = rr.total ∧ fr.products = rr.products := by
  intro rs
  induction rs with
  | nil => intro rr h; cases h
  | cons r rs ih =>
    intro rr h
    rcases List.mem_cons.mp h with rfl | h
    · cases hf : retained.filter (fun c => c.cid.astypeStr == rr.rkey) with
      | nil =>
        refine ⟨⟨rr.rkey, rr.total, rr.products, none⟩, ?_, rfl, rfl, rfl⟩
        simp [mergeEmail, hf]
      | cons c cs =>
        refine ⟨⟨rr.rkey, rr.total, rr.products, some c.email⟩, ?_, rfl, rfl, rfl⟩
        simp [mergeEmail, hf]
    · obtain ⟨fr, hm, he⟩ := ih rr h
      refine ⟨fr, ?_, he⟩
      rw [mergeEmail]
      exact List.mem_append_right _ hm

theorem mem_mergeEmail (retained : List ClientRow) :
    ∀ (rs : List ResultRow) (fr : FinalRow), fr ∈ mergeEmail retained rs →
      ∃ rr ∈ rs, fr.rkey = rr.rkey ∧ fr.total = rr.total ∧ fr.products = rr.products := by
  intro rs
  induction rs with
  | nil => intro fr h; simp [mergeEmail] at h
  | cons r rs ih =>
    intro fr h
    rw [mergeEmail] at h
    rcases List.mem_append.mp h with hb | ht
    · cases hf : retained.filter (fun c => c.cid.astypeStr == r.rkey) with
      | nil =>
        rw [hf] at hb
        simp only [List.mem_singleton] at hb
        subst hb
        exact ⟨r, List.mem_cons_self r rs, rfl, rfl, rfl⟩
      | cons c cs =>
        rw [hf] at hb
        simp only [List.mem_map] at hb
        obtain ⟨c', _, hc'⟩ := hb
        subst hc'
        exact ⟨r, List.mem_cons_self r rs, rfl, rfl, rfl⟩
    · obtain ⟨rr, hm, he⟩ := ih fr ht
      exact ⟨rr, List.mem_cons_of_mem _ hm, he⟩

theorem aggRow_rkey (rows : List InvRow) (k : String) : (aggRow rows k).rkey = k := rfl

theorem aggregate_map_total (rows : List InvRow) :
    (aggregate rows).map ResultRow.total
      = (sortStrings (dedupFirst (rows.map keyOf))).map
          (fun k => ((rows.filter fun r => keyOf r == k).map parsedOrZero).sum) := by
  simp only [aggregate, List.map_map]
  exact List.map_congr_left fun a _ => rfl

theorem keyOf_mem_keys {rows : List InvRow} {r : InvRow} (h : r ∈ rows) :
    keyOf r ∈ sortStrings (dedupFirst (rows.map keyOf)) := by
  rw [mem_sortStrings, mem_dedupFirst]
  exact List.mem_map_of_mem _ h

theorem sum_aggregate (rows : List InvRow) :
    ((aggregate rows).map ResultRow.total).sum = (rows.map parsedOrZero).sum := by
  rw [aggregate_map_total]
  exact sum_groups keyOf parsedOrZero _
    (nodup_sortStrings _ (nodup_dedupFirst _)) rows (fun r hr => keyOf_mem_keys hr)

theorem aggregate_rkey_mem {rows : List InvRow} {rr : ResultRow} (h : rr ∈ aggregate rows) :
    ∃ r ∈ rows, keyOf r = rr.rkey := by
  obtain ⟨k, hk, hrr⟩ := List.mem_map.mp h
  have : k ∈ rows.map keyOf := by
    rw [← mem_dedupFirst k, ← mem_sortStrings]
    exact hk
  obtain ⟨r, hr, hkey⟩ := List.mem_map.mp this
  exact ⟨r, hr, by rw [hkey, ← hrr]; exact (aggRow_rkey rows k).symm⟩

theorem aggregate_covers {inp : PipelineInput} {rr : ResultRow}
    (h : rr ∈ aggregate (survivingOf inp)) :
    rr.rkey ∈ retainedStrKeys (retainedOf inp) := by
  obtain ⟨r, hr, hkey⟩ := aggregate_rkey_mem h
  have := (mem_survivingOf.mp hr).2.2
  rw [← hkey]
  exact contains_iff_mem.mp this

theorem mem_nonZeroRows {rows : List InvRow} {r : InvRow} :
    r ∈ nonZeroRows rows ↔ r ∈ rows ∧ r.amount.neZero = true := by
  unfold nonZeroRows
  exact List.mem_filter

theorem splitInvoices_dated {inp : PipelineInput}
    (hd : (resolveDateCol inp.invHeaders).isSome = true) :
    resaOf inp = beforeRows inp.cutoff inp.invoiceRows
      ∧ afterOf inp = afterRows inp.cutoff inp.invoiceRows := by
  unfold resaOf afterOf splitInvoices
  cases h : resolveDateCol inp.invHeaders with
  | some d => simp [h]
  | none => rw [h] at hd; simp at hd

theorem inResa_congr {resa1 resa2 : List InvRow} (hp : resa1.Perm resa2) (c : ClientRow) :
    inResa resa1 c = inResa resa2 c := by
  unfold inResa
  cases h : resa2.any (fun r => Val.peq c.cid r.client) with
  | true =>
    obtain ⟨r, hr, hpr⟩ := List.any_eq_true.mp h
    exact List.any_eq_true.mpr ⟨r, hp.mem_iff.mpr hr, hpr⟩
  | false =>
    rw [List.any_eq_false] at h ⊢
    intro r hr
    exact h r (hp.mem_iff.mp hr)

theorem retainedClients_congr (boostEmails : List String) (clients : List ClientRow)
    {resa1 resa2 : List InvRow} (hp : resa1.Perm resa2) :
    retainedClients boostEmails clients resa1 = retainedClients boostEmails clients resa2 := by
  unfold retainedClients
  have e1 : (clientsByEmail boostEmails clients).filter (inResa resa1)
      = (clientsByEmail boostEmails clients).filter (inResa resa2) :=
    List.filter_congr (fun c _ => inResa_congr hp c)
  rw [e1]

theorem runPipeline_ok {inp : PipelineInput}
    (h1 : inp.invHeaders.contains clientCanon = true)
    (h2 : inp.invHeaders.contains (resolveAmountCol inp.invHeaders) = true)
    (h3 : inp.invHeaders.contains (resolveProductCol inp.invHeaders) = true) :
    runPipeline inp = .ok (mergeEmail (retainedOf inp) (aggregate (survivingOf inp))) := by
  have m1 := contains_iff_mem.mp h1
  have m2 := contains_iff_mem.mp h2
  have m3 := contains_iff_mem.mp h3
  simp [runPipeline, m1, m2, m3]

/-! ## Claim theorems -/

/-- C3: after partitioning, every invoice row lands in exactly one of
{before, after, neither}: it is in the before partition iff its parsed
date is strictly below the cutoff, in the after partition iff its parsed
date is at or above the cutoff, rows whose date failed to parse are in
neither, and no row is in both. -/
theorem claim_c3_partition_trichotomy (cutoff : Nat) (rows : List InvRow) (r : InvRow) :
    (r ∈ beforeRows cutoff rows ↔ r ∈ rows ∧ ∃ d, r.rdate = some d ∧ d < cutoff)
    ∧ (r ∈ afterRows cutoff rows ↔ r ∈ rows ∧ ∃ d, r.rdate = some d ∧ cutoff ≤ d)
    ∧ ¬(r ∈ beforeRows cutoff rows ∧ r ∈ afterRows cutoff rows) := by
  refine ⟨?_, ?_, ?_⟩
  · unfold beforeRows
    rw [List.mem_filter]
    constructor
    · rintro ⟨h1, h2⟩
      refine ⟨h1, ?_⟩
      unfold isBefore at h2
      cases hd : r.rdate with
      | none => rw [hd] at h2; simp at h2
      | some d => rw [hd] at h2; exact ⟨d, rfl, by simpa using h2⟩
    · rintro ⟨h1, d, hd, hlt⟩
      exact ⟨h1, by simp [isBefore, hd, hlt]⟩
  · unfold afterRows
    rw [List.mem_filter]
    constructor
    · rintro ⟨h1, h2⟩
      refine ⟨h1, ?_⟩
      unfold isAfter at h2
      cases hd : r.rdate with
      | none => rw [hd] at h2; simp at h2
      | some d => rw [hd] at h2; exact ⟨d, rfl, by simpa using h2⟩
    · rintro ⟨h1, d, hd, hle⟩
      exact ⟨h1, by simp [isAfter, hd, hle]⟩
  · rintro ⟨hb, ha⟩
    have h2 := (List.mem_filter.mp hb).2
    have h3 := (List.mem_filter.mp ha).2
    unfold isBefore at h2
    unfold isAfter at h3
    cases hd : r.rdate with
    | none => rw [hd] at h2; simp at h2
    | some d =>
      rw [hd] at h2 h3
      simp only [decide_eq_true_eq] at h2 h3
      omega

/-- C5 (amended): the reconciler's disjointness invariant holds only
under the pipeline's own raw-value comparison — a retained client's raw
id matches no client id appearing in the before-cutoff invoice slice
under the `isin` of line 186 (`Val.peq` on raw cells).  Under the spec's
string-normalized clientId identity the invariant fails when the invoice
and roster columns carry different representations of the same id. -/
theorem claim_c5_retained_disjoint_before (boostEmails : List String)
    (clients : List ClientRow) (resa : List InvRow) (c : ClientRow)
    (hc : c ∈ retainedClients boostEmails clients resa) :
    (resa.any fun r => Val.peq c.cid r.client) = false := by
  unfold retainedClients at hc
  obtain ⟨hcs, hp⟩ := List.mem_filter.mp hc
  have hnotany : (((clientsByEmail boostEmails clients).filter (inResa resa)).any
      fun d => Val.peq c.cid d.cid) = false := by
    cases h : ((clientsByEmail boostEmails clients).filter (inResa resa)).any
        (fun d => Val.peq c.cid d.cid) with
    | false => rfl
    | true => rw [h] at hp; simp at hp
  by_contra hne
  have hin : inResa resa c = true := by
    unfold inResa
    cases h : resa.any (fun r => Val.peq c.cid r.client) with
    | true => rfl
    | false => exact absurd h hne
  have hmem : c ∈ (clientsByEmail boostEmails clients).filter (inResa resa) :=
    List.mem_filter.mpr ⟨hcs, hin⟩
  have hany2 : (((clientsByEmail boostEmails clients).filter (inResa resa)).any
      fun d => Val.peq c.cid d.cid) = true :=
    List.any_eq_true.mpr ⟨c, hmem, peq_refl c.cid⟩
  rw [hany2] at hnotany
  simp at hnotany

/-- Witness for C5 at a concrete reconciliation: client id 7 is retained
against a before-slice containing only id 9, and indeed matches no
before-row. -/
theorem claim_c5_witness :
    wClient ∈ retainedClients ["e"] [wClient] wResa
      ∧ (wResa.any fun r => Val.peq wClient.cid r.client) = false :=
  ⟨by decide, claim_c5_retained_disjoint_before ["e"] [wClient] wResa wClient (by decide)⟩

/-- C5 (counterexample to the claim as stated): with the invoice id
column read as strings (`"7"`) and the roster id numeric (`7`), the raw
`isin` of line 186 finds no match, so the client is retained despite a
before-cutoff invoice; the post-`astype(str)` comparison of line 209 then
matches its after-invoice, and the client appears in the result table
keyed `"7"` while a before-partition row carries that same stringified
clientId `"7"` — the result is not disjoint from `activeBefore` under
the spec's string-normalized identity. -/
theorem claim_c5_counterexample :
    runPipeline mixedIdScenario = Except.ok [⟨"7", 15, "P", some "e"⟩]
      ∧ (∃ r ∈ resaOf mixedIdScenario, r.client.astypeStr = "7"
          ∧ ∃ d, r.rdate = some d ∧ d < mixedIdScenario.cutoff)
      ∧ { email := "e", cid := Val.vint 7 } ∈ retainedOf mixedIdScenario
      ∧ Val.astypeStr (Val.vint 7) = "7" := by
  refine ⟨?_, by decide, by decide, by decide⟩
  have ht : toString (7 : ℤ) = "7" := rfl
  simp [ht, runPipeline, mixedIdScenario, canonHeaders, retainedOf, resaOf, afterOf,
    splitInvoices, resolveDateCol, survivingOf, restrictToRetained, nonZeroRows,
    retainedClients, clientsByEmail, inResa, retainedStrKeys, aggregate, aggRow, mergeEmail,
    dedupFirst, dedupFirstAux, sortStrings, insertSortedStr, keyOf, parsedOrZero,
    parsedAmount, toNumeric?, replaceCommaDot, parseDecimal?, natOfDigits, digitVal,
    beforeRows, afterRows, isBefore, isAfter, Val.astypeStr, Val.peq, Val.key, Val.neZero,
    isDateCol, strContains, lowerString, listContainsSub, resolveAmountCol,
    resolveProductCol, amountCanon, productCanon, clientCanon]
  rfl

/-- C8: the pipeline is a deterministic function of its input — two runs
on identical tables, cutoff and configuration produce identical result
tables (same grouped row set, same group order, same first-seen-order
products strings). -/
theorem claim_c8_deterministic (inp1 inp2 : PipelineInput) (h : inp1 = inp2) :
    runPipeline inp1 = runPipeline inp2 := by
  rw [h]

/-- Witness for C8: two runs on the same concrete input coincide. -/
theorem claim_c8_witness : runPipeline wRun = runPipeline wRun :=
  claim_c8_deterministic wRun wRun rfl

/-- C9: column resolution is a deterministic function of the header list,
and when several headers match the keyword heuristic the first one in
column order is chosen — for the date column (first `'date'` substring
match) and for the amount column (exact canonical name first, else first
fuzzy match). -/
theorem claim_c9_resolution_first_match (pre post : List String) (c : String) :
    (isDateCol c = true → (∀ x ∈ pre, isDateCol x = false) →
      resolveDateCol (pre ++ c :: post) = some c)
    ∧ (amountCanon ∉ pre ++ c :: post → isAmountCol c = true →
        (∀ x ∈ pre, isAmountCol x = false) →
        resolveAmountCol (pre ++ c :: post) = c) := by
  constructor
  · intro hc hpre
    unfold resolveDateCol
    have hpre' : pre.filter isDateCol = [] :=
      List.filter_eq_nil_iff.mpr (fun x hx => by rw [hpre x hx]; simp)
    rw [List.filter_append, hpre', List.filter_cons_of_pos hc]
    rfl
  · intro hnm hc hpre
    unfold resolveAmountCol
    rw [if_neg (fun h => hnm (contains_iff_mem.mp h))]
    have hpre' : pre.filter isAmountCol = [] :=
      List.filter_eq_nil_iff.mpr (fun x hx => by rw [hpre x hx]; simp)
    rw [List.filter_append, hpre', List.filter_cons_of_pos hc]
    rfl

/-- Witness for C9: among headers `["Type", "Date facture", "date2"]` the
first date-like column is chosen, and among
`["Type", "Montant HT", "Amount"]` (canonical absent) the first fuzzy
amount match is chosen. -/
theorem claim_c9_witness :
    resolveDateCol ["Type", "Date facture", "date2"] = some "Date facture"
      ∧ resolveAmountCol ["Type", "Montant HT", "Amount"] = "Montant HT" :=
  ⟨(claim_c9_resolution_first_match ["Type"] ["date2"] "Date facture").1
      (by decide) (by decide),
    (claim_c9_resolution_first_match ["Type"] ["Amount"] "Montant HT").2
      (by decide) (by decide) (by decide)⟩

/-- C10: on a successful run, a key appears as a result-table row exactly
when it is the stringified id of a retained client AND some after-cutoff
invoice with that stringified id survived the zero-amount filter; a
retained client with no such surviving invoice is silently absent from
the result. -/
theorem claim_c10_result_row_characterization (inp : PipelineInput) (k : String)
    (h1 : inp.invHeaders.contains clientCanon = true)
    (h2 : inp.invHeaders.contains (resolveAmountCol inp.invHeaders) = true)
    (h3 : inp.invHeaders.contains (resolveProductCol inp.invHeaders) = true) :
    ∃ res, runPipeline inp = .ok res ∧
      ((∃ fr ∈ res, fr.rkey = k) ↔
        ((∃ c ∈ retainedOf inp, c.cid.astypeStr = k)
          ∧ ∃ r ∈ nonZeroRows (afterOf inp), r.client.astypeStr = k)) := by
  refine ⟨_, runPipeline_ok h1 h2 h3, ?_⟩
  constructor
  · rintro ⟨fr, hfr, hkey⟩
    obtain ⟨rr, hrr, hk, _, _⟩ := mem_mergeEmail _ _ fr hfr
    obtain ⟨r, hr, hkr⟩ := aggregate_rkey_mem hrr
    have hrs := mem_survivingOf.mp hr
    have hkk : r.client.astypeStr = k := by
      have : keyOf r = k := by rw [hkr, ← hk, hkey]
      exact this
    constructor
    · have hmemk : r.client.astypeStr ∈ retainedStrKeys (retainedOf inp) :=
        contains_iff_mem.mp hrs.2.2
      rw [hkk] at hmemk
      obtain ⟨c, hc, hck⟩ := List.mem_map.mp hmemk
      exact ⟨c, hc, hck⟩
    · exact ⟨r, mem_nonZeroRows.mpr ⟨hrs.1, hrs.2.1⟩, hkk⟩
  · rintro ⟨⟨c, hc, hck⟩, ⟨r, hr, hrk⟩⟩
    obtain ⟨hra, hrnz⟩ := mem_nonZeroRows.mp hr
    have hrmem : r ∈ survivingOf inp := by
      refine mem_survivingOf.mpr ⟨hra, hrnz, ?_⟩
      apply contains_iff_mem.mpr
      rw [hrk, ← hck]
      exact List.mem_map_of_mem _ hc
    have hkmem : k ∈ sortStrings (dedupFirst ((survivingOf inp).map keyOf)) := by
      rw [mem_sortStrings, mem_dedupFirst]
      exact List.mem_map.mpr ⟨r, hrmem, hrk⟩
    have haggr : aggRow (survivingOf inp) k ∈ aggregate (survivingOf inp) :=
      List.mem_map_of_mem _ hkmem
    obtain ⟨fr, hfrm, hfrk, _, _⟩ := mergeEmail_mem_of_mem _ _ _ haggr
    exact ⟨fr, hfrm, by rw [hfrk, aggRow_rkey]⟩

/-- Witness for C10 at the concrete run `wRun` with key `"2"`. -/
theorem claim_c10_witness :
    ∃ res, runPipeline wRun = .ok res ∧
      ((∃ fr ∈ res, fr.rkey = "2") ↔
        ((∃ c ∈ retainedOf wRun, c.cid.astypeStr = "2")
          ∧ ∃ r ∈ nonZeroRows (afterOf wRun), r.client.astypeStr = "2")) :=
  claim_c10_result_row_characterization wRun "2" (by decide) (by decide) (by decide)

/-- C6: an after-partition row whose amount cell fails to parse does not
abort the run: the row is not dropped (it survives into the grouped
table), its client's group still appears in the result, the row's product
still counts toward the group's Products list, and the group total is the
sum over only the parsable rows — the unparsable row contributes nothing
to it. -/
theorem claim_c6_unparsable_amount_kept (inp : PipelineInput) (r : InvRow)
    (h1 : inp.invHeaders.contains clientCanon = true)
    (h2 : inp.invHeaders.contains (resolveAmountCol inp.invHeaders) = true)
    (h3 : inp.invHeaders.contains (resolveProductCol inp.invHeaders) = true)
    (hr : r ∈ afterOf inp)
    (hparse : parsedAmount r = none)
    (hret : (retainedStrKeys (retainedOf inp)).contains r.client.astypeStr = true) :
    ∃ res, runPipeline inp = .ok res
      ∧ r ∈ survivingOf inp
      ∧ ∃ fr ∈ res, fr.rkey = keyOf r
          ∧ r.product ∈ dedupFirst ((groupOf inp (keyOf r)).map InvRow.product)
          ∧ fr.products
              = String.intercalate ", " (dedupFirst ((groupOf inp (keyOf r)).map InvRow.product))
          ∧ fr.total = ((groupOf inp (keyOf r)).filterMap parsedAmount).sum := by
  have hnz : r.amount.neZero = true := by
    cases hv : r.amount with
    | vstr s => rfl
    | vint n =>
      rw [parsedAmount] at hparse
      rw [hv] at hparse
      simp [replaceCommaDot, toNumeric?] at hparse
    | vfloat q =>
      rw [parsedAmount] at hparse
      rw [hv] at hparse
      simp [replaceCommaDot, toNumeric?] at hparse
  have hrs : r ∈ survivingOf inp := mem_survivingOf.mpr ⟨hr, hnz, hret⟩
  have hkmem : keyOf r ∈ sortStrings (dedupFirst ((survivingOf inp).map keyOf)) :=
    keyOf_mem_keys hrs
  have haggr : aggRow (survivingOf inp) (keyOf r) ∈ aggregate (survivingOf inp) :=
    List.mem_map_of_mem _ hkmem
  obtain ⟨fr, hfrm, hfrk, hfrt, hfrp⟩ := mergeEmail_mem_of_mem _ _ _ haggr
  refine ⟨_, runPipeline_ok h1 h2 h3, hrs, fr, hfrm, ?_, ?_, ?_, ?_⟩
  · rw [hfrk, aggRow_rkey]
  · rw [mem_dedupFirst]
    apply List.mem_map_of_mem
    unfold groupOf
    exact List.mem_filter.mpr ⟨hrs, by simp⟩
  · rw [hfrp]; rfl
  · rw [hfrt]
    have hbody : (aggRow (survivingOf inp) (keyOf r)).total
        = ((groupOf inp (keyOf r)).map parsedOrZero).sum := rfl
    rw [hbody, sum_parsedOrZero_eq_filterMap]

/-- Witness for C6: the `"abc"` amount row of `wRun` survives, its product
`"A"` appears in the group's product list, and the group total sums only
the parsable rows. -/
theorem claim_c6_witness :
    ∃ res, runPipeline wRun = .ok res
      ∧ wAbcRow ∈ survivingOf wRun
      ∧ ∃ fr ∈ res, fr.rkey = keyOf wAbcRow
          ∧ wAbcRow.product ∈ dedupFirst ((groupOf wRun (keyOf wAbcRow)).map InvRow.product)
          ∧ fr.products = String.intercalate ", "
              (dedupFirst ((groupOf wRun (keyOf wAbcRow)).map InvRow.product))
          ∧ fr.total = ((groupOf wRun (keyOf wAbcRow)).filterMap parsedAmount).sum :=
  claim_c6_unparsable_amount_kept wRun wAbcRow (by decide) (by decide) (by decide)
    (by decide) (by decide) (by decide)

/-- C4 (counterexample to the claim as stated): when the client roster
lists the same id twice under two contact-known emails, the final email
join duplicates that client's result row, so the sum of TotalAmount over
the result table is 30 while the sum of normalized non-zero non-missing
amounts over the retained after-partition rows is 15. -/
theorem claim_c4_counterexample :
    runPipeline dupClientScenario
        = Except.ok [⟨"2", 15, "P", some "e1"⟩, ⟨"2", 15, "P", some "e2"⟩]
      ∧ (([⟨"2", 15, "P", some "e1"⟩, ⟨"2", 15, "P", some "e2"⟩] : List FinalRow).map
          FinalRow.total).sum = 30
      ∧ specAfterSum dupClientScenario = 15
      ∧ (30 : ℚ) ≠ 15 := by
  refine ⟨?_, by norm_num, ?_, by norm_num⟩
  · simp [runPipeline, dupClientScenario, canonHeaders, retainedOf, resaOf, afterOf,
      splitInvoices, resolveDateCol, survivingOf, restrictToRetained, nonZeroRows,
      retainedClients, clientsByEmail, inResa, retainedStrKeys, aggregate, aggRow, mergeEmail,
      dedupFirst, dedupFirstAux, sortStrings, insertSortedStr, keyOf, parsedOrZero,
      parsedAmount, toNumeric?, replaceCommaDot, parseDecimal?, natOfDigits, digitVal,
      beforeRows, afterRows, isBefore, isAfter, Val.astypeStr, Val.peq, Val.key, Val.neZero,
      isDateCol, strContains, lowerString, listContainsSub, resolveAmountCol,
      resolveProductCol, amountCanon, productCanon, clientCanon]
    exact ⟨rfl, rfl⟩
  · simp [specAfterSum, specContrib, dupClientScenario, canonHeaders, retainedOf, resaOf,
      afterOf, splitInvoices, resolveDateCol, retainedClients, clientsByEmail, inResa,
      retainedStrKeys, keyOf, parsedAmount, toNumeric?, replaceCommaDot, parseDecimal?,
      natOfDigits, digitVal, beforeRows, afterRows, isBefore, isAfter, Val.astypeStr,
      Val.peq, Val.key, isDateCol, strContains, lowerString, listContainsSub, clientCanon]

/-- C4 (amended): provided a date-like column resolves (so the date
split, not the index fallback, is used) and no two retained client rows
share a stringified id (so the email join duplicates nothing), the sum of
TotalAmount over the result table equals the sum of the normalized,
non-zero, non-missing amounts over exactly the after-partition rows whose
stringified clientId is among the retained clients' — and that value is
invariant under any permutation of the invoice rows. -/
theorem claim_c4_amended_sum (inp : PipelineInput) (rows' : List InvRow)
    (h1 : inp.invHeaders.contains clientCanon = true)
    (h2 : inp.invHeaders.contains (resolveAmountCol inp.invHeaders) = true)
    (h3 : inp.invHeaders.contains (resolveProductCol inp.invHeaders) = true)
    (hnd : (retainedStrKeys (retainedOf inp)).Nodup)
    (hd : (resolveDateCol inp.invHeaders).isSome = true)
    (hperm : rows'.Perm inp.invoiceRows) :
    ∃ res, runPipeline inp = .ok res
      ∧ (res.map FinalRow.total).sum = specAfterSum inp
      ∧ specAfterSum { inp with invoiceRows := rows' } = specAfterSum inp := by
  refine ⟨_, runPipeline_ok h1 h2 h3, ?_, ?_⟩
  · rw [mergeEmail_total_sum _ _ hnd (fun rr hrr => aggregate_covers hrr)]
    rw [sum_aggregate]
    rw [show ((survivingOf inp).map parsedOrZero).sum
        = ((((afterOf inp).filter fun r =>
            (retainedStrKeys (retainedOf inp)).contains r.client.astypeStr).filter
            (fun r => r.amount.neZero)).map parsedOrZero).sum from by
      rw [← surviving_eq_swap]]
    rw [sum_nonZero_eq_spec]
    rfl
  · have hd' : (resolveDateCol
        ({ inp with invoiceRows := rows' } : PipelineInput).invHeaders).isSome = true := hd
    obtain ⟨hra, hfa⟩ := splitInvoices_dated hd
    obtain ⟨hra', hfa'⟩ := splitInvoices_dated hd'
    have hresaPerm : (resaOf { inp with invoiceRows := rows' }).Perm (resaOf inp) := by
      rw [hra', hra]
      exact hperm.filter _
    have hret : retainedOf { inp with invoiceRows := rows' } = retainedOf inp := by
      unfold retainedOf
      exact retainedClients_congr _ _ hresaPerm
    have hafterPerm : (afterOf { inp with invoiceRows := rows' }).Perm (afterOf inp) := by
      rw [hfa', hfa]
      exact hperm.filter _
    unfold specAfterSum
    rw [hret]
    exact List.Perm.sum_eq ((hafterPerm.filter _).filterMap _)

/-- Witness for the amended C4 at the concrete run `wRun`, with the
invoice rows reversed as the permutation. -/
theorem claim_c4_amended_witness :
    ∃ res, runPipeline wRun = .ok res
      ∧ (res.map FinalRow.total).sum = specAfterSum wRun
      ∧ specAfterSum { wRun with invoiceRows := wRun.invoiceRows.reverse }
          = specAfterSum wRun :=
  claim_c4_amended_sum wRun wRun.invoiceRows.reverse (by decide) (by decide) (by decide)
    (by decide) (by decide) (wRun.invoiceRows.reverse_perm)

/-- C1 (evaluation at the failing input): on the spec's two-row scenario
the zero-amount row is NOT removed — line 201 compares the raw string
cell `"0,00"` against `0`, which Python answers `True` — so its product
`"Z"` appears in the client's Products string `"Z, P"`.  TotalAmount is
still 15 because the row parses to 0 and adds nothing to the sum. -/
theorem claim_c1_zero_row_not_dropped :
    runPipeline zeroScenario = Except.ok [⟨"2", 15, "Z, P", some "e"⟩]
      ∧ (Val.vstr "0,00").neZero = true := by
  refine ⟨?_, rfl⟩
  simp [runPipeline, zeroScenario, canonHeaders, retainedOf, resaOf, afterOf,
    splitInvoices, resolveDateCol, survivingOf, restrictToRetained, nonZeroRows,
    retainedClients, clientsByEmail, inResa, retainedStrKeys, aggregate, aggRow, mergeEmail,
    dedupFirst, dedupFirstAux, sortStrings, insertSortedStr, keyOf, parsedOrZero,
    parsedAmount, toNumeric?, replaceCommaDot, parseDecimal?, natOfDigits, digitVal,
    beforeRows, afterRows, isBefore, isAfter, Val.astypeStr, Val.peq, Val.key, Val.neZero,
    isDateCol, strContains, lowerString, listContainsSub, resolveAmountCol,
    resolveProductCol, amountCanon, productCanon, clientCanon]
  exact ⟨rfl, rfl⟩

/-- C7 (evaluation at the failing input): on an invoice table with no
product-like column the run aborts with a `KeyError` naming the product
column — the `agg` dictionary is keyed by the unresolved column name, and
pandas raises before the lambda's `'N/A'` branch can run.  No result with
`Products = "N/A"` is ever produced. -/
theorem claim_c7_missing_product_aborts :
    runPipeline noProductScenario = Except.error ("KeyError: " ++ productCanon) := by
  rfl

/-- C2 (counterexample to the claim as stated): with the id 1023 carried
in float64 cells, the pipeline's `astype(str)` renders it `"1023.0"`,
which becomes the result row's ClientId — so `"1023.0"` IS produced by
type coercion — and the raw-value comparison used by the before-partition
membership test judges the numeric id 1023 and the string `"1023"`
unequal. -/
theorem claim_c2_counterexample :
    runPipeline floatIdScenario = Except.ok [⟨"1023.0", 15, "P", some "e"⟩]
      ∧ Val.peq (Val.vstr "1023") (Val.vint 1023) = false := by
  refine ⟨?_, by decide⟩
  simp [runPipeline, floatIdScenario, canonHeaders, retainedOf, resaOf, afterOf,
    splitInvoices, resolveDateCol, survivingOf, restrictToRetained, nonZeroRows,
    retainedClients, clientsByEmail, inResa, retainedStrKeys, aggregate, aggRow, mergeEmail,
    dedupFirst, dedupFirstAux, sortStrings, insertSortedStr, keyOf, parsedOrZero,
    parsedAmount, toNumeric?, replaceCommaDot, parseDecimal?, natOfDigits, digitVal,
    beforeRows, afterRows, isBefore, isAfter, Val.astypeStr, floatRepr, Val.peq, Val.key,
    Val.neZero, isDateCol, strContains, lowerString, listContainsSub, resolveAmountCol,
    resolveProductCol, amountCanon, productCanon, clientCanon]
  exact ⟨rfl, rfl⟩

/-- C2 (amended): clientId comparisons are NOT performed on a trimmed,
float-free normalized string.  Before line 205 they use raw pandas
values, under which a string id never equals a numeric id; from line 205
on they use plain `astype(str)`, which renders an integer-valued float id
`n` as `"n.0"` — and such a key can reach the final result table. -/
theorem claim_c2_amended_raw_and_astype :
    (∀ n : ℤ, Val.peq (Val.vstr (toString n)) (Val.vint n) = false)
    ∧ (∀ n : ℤ, Val.astypeStr (Val.vfloat (n : ℚ)) = toString n ++ ".0")
    ∧ runPipeline floatIdScenario = Except.ok [⟨"1023.0", 15, "P", some "e"⟩] := by
  refine ⟨?_, ?_, ?_⟩
  · intro n
    simp [Val.peq, Val.key]
  · intro n
    simp [Val.astypeStr, floatRepr]
  · simp [runPipeline, floatIdScenario, canonHeaders, retainedOf, resaOf, afterOf,
      splitInvoices, resolveDateCol, survivingOf, restrictToRetained, nonZeroRows,
      retainedClients, clientsByEmail, inResa, retainedStrKeys, aggregate, aggRow, mergeEmail,
      dedupFirst, dedupFirstAux, sortStrings, insertSortedStr, keyOf, parsedOrZero,
      parsedAmount, toNumeric?, replaceCommaDot, parseDecimal?, natOfDigits, digitVal,
      beforeRows, afterRows, isBefore, isAfter, Val.astypeStr, floatRepr, Val.peq, Val.key,
      Val.neZero, isDateCol, strContains, lowerString, listContainsSub, resolveAmountCol,
      resolveProductCol, amountCanon, productCanon, clientCanon]
    exact ⟨rfl, rfl⟩

end Seraphin
